import Mathlib

/-!
# CaretForge: verification of the safety classifier, permission manager,
# agent loop, streaming assembler and edit tool

Shallow embedding of the TypeScript sources of the CaretForge CLI agent.
JavaScript strings are modelled as `List Char` (`Str`); machine numbers that
matter (`indexOf` positions, counts, line deltas) are `Nat`/`Int`.  Loops
whose termination is part of a claim (the `countOccurrences` scan of
`editFile.ts`) are modelled with an explicit fuel parameter, `none` standing
for non-termination of the source loop.  All definitions are executable so
that witnesses evaluate by `decide`/`rfl`.
-/

set_option autoImplicit false
set_option maxHeartbeats 1000000

namespace CaretForge

/-- JavaScript strings are modelled as lists of characters. -/
abbrev Str : Type := List Char

/-- Convert a Lean string literal into the `Str` model. -/
def str (s : String) : Str := s.toList

/-- Decimal rendering of a `Nat`, modelling JS template interpolation of a
number. -/
def natStr (n : Nat) : Str := (toString n).toList

/-- Decimal rendering of an `Int` (`-2` renders as "-2", as in JS). -/
def intStr (i : Int) : Str := (toString i).toList

/-- The whitespace class used by JS `\s` and `String.trim` (ASCII part). -/
def isSpaceChar (c : Char) : Bool :=
  c = ' ' || c = '\t' || c = '\n' || c = '\r' || c = Char.ofNat 11 || c = Char.ofNat 12

/-- JS `\w`: ASCII letters, digits and underscore. -/
def isWordChar (c : Char) : Bool :=
  ('a' ≤ c && c ≤ 'z') || ('A' ≤ c && c ≤ 'Z') || ('0' ≤ c && c ≤ '9') || c = '_'

/-- JS `String.prototype.trim`. -/
def trim (s : Str) : Str :=
  ((s.dropWhile isSpaceChar).reverse.dropWhile isSpaceChar).reverse

/-- JS `s.split(re)` for a single-character class `re` (e.g. `/[|;&]/`):
split at every separator character, keeping empty segments. -/
def splitOnPred (p : Char → Bool) : Str → List Str
  | [] => [[]]
  | c :: t =>
    match splitOnPred p t with
    | [] => if p c then [[], []] else [[c]]
    | h :: r => if p c then [] :: h :: r else (c :: h) :: r

/-- JS `s.split(re)` for a one-or-more character class (e.g. `/[;&]+/`):
a maximal run of separator characters acts as one separator. -/
def splitRuns (p : Char → Bool) : Str → List Str
  | [] => [[]]
  | c :: t =>
    let r := splitRuns p t
    if p c then
      match t with
      | c2 :: _ => if p c2 then r else [] :: r
      | [] => [] :: r
    else
      match r with
      | h :: rest => (c :: h) :: rest
      | [] => [[c]]

/-- Index (relative to the start of `s`) of the first occurrence of `n` in
`s`, or `none`.  The empty needle occurs at index 0.  Models the search core
of JS `String.prototype.indexOf`. -/
def firstOccAux (n : Str) : Str → Option Nat
  | [] => if n.isPrefixOf ([] : Str) then some 0 else none
  | c :: t =>
    if n.isPrefixOf (c :: t) then some 0
    else (firstOccAux n t).map (· + 1)

/-- JS `h.indexOf(n, pos)` (with `none` for `-1`): the search starts at
`min pos h.length`; an empty needle is found at the start position. -/
def indexOfFrom (h n : Str) (pos : Nat) : Option Nat :=
  let start := min pos h.length
  (firstOccAux n (h.drop start)).map (· + start)

/-- The scanning loop of `countOccurrences` in `src/tools/editFile.ts`:

    let count = 0; let pos = 0;
    while ((pos = haystack.indexOf(needle, pos)) !== -1) { count++; pos += needle.length; }

modelled with fuel; `none` models non-termination of the JS loop. -/
def countLoop (h n : Str) : Nat → Nat → Nat → Option Nat
  | 0, _, _ => none
  | fuel + 1, pos, acc =>
    match indexOfFrom h n pos with
    | none => some acc
    | some p => countLoop h n fuel (p + n.length) (acc + 1)

/-- `countOccurrences` of `src/tools/editFile.ts`.  The fuel
`h.length + 1` is exact for a non-empty needle: every found occurrence
advances the scan position by at least one. -/
def countOccurrences (h n : Str) : Option Nat :=
  countLoop h n (h.length + 1) 0 0

/-- Specification: the number of non-overlapping occurrences of `n`,
counted greedily left to right.  Fueled to stay structurally recursive;
`s.length + 1` fuel is always sufficient (each step consumes at least one
character when `n` is non-empty). -/
def occCountF (n : Str) : Nat → Str → Nat
  | 0, _ => 0
  | fuel + 1, s =>
    if n.isPrefixOf s ∧ n ≠ [] then occCountF n fuel (s.drop n.length) + 1
    else
      match s with
      | [] => 0
      | _ :: t => occCountF n fuel t

/-- The number of non-overlapping occurrences of `n` in `s`. -/
def occCount (n s : Str) : Nat := occCountF n (s.length + 1) s

/-! ## Regular expressions

The safety classifier of `src/safety/commandSafety.ts` is driven by JS
regex literals.  We embed the fragment of JS regex syntax those literals
use: characters, `.`, character classes, concatenation, alternation, `*`
(`+` and `?` are derived), the anchors `^` and `$`, and the word-boundary
assertion `\b`.  Matching is positional over a fixed subject string, so the
zero-width assertions can inspect both neighbouring characters. -/

/-- One item of a character class: a single character or a range. -/
inductive CCItem : Type
  | ch (c : Char)
  | range (lo hi : Char)
deriving DecidableEq

/-- The regex fragment used by the safety tables. -/
inductive Regex : Type
  | eps
  | ch (c : Char)
  | any
  | cc (items : List CCItem)
  | seq (r1 r2 : Regex)
  | alt (r1 r2 : Regex)
  | star (r : Regex)
  | bos
  | eos
  | wb
deriving DecidableEq

/-- Does a character class item match a character? -/
def ccItemMatch (c : Char) : CCItem → Bool
  | .ch c' => c = c'
  | .range lo hi => lo ≤ c && c ≤ hi

/-- Structural size of a regex, used to compute a sufficient matcher fuel. -/
def rsize : Regex → Nat
  | .eps | .ch _ | .any | .cc _ | .bos | .eos | .wb => 1
  | .seq r1 r2 => rsize r1 + rsize r2 + 1
  | .alt r1 r2 => rsize r1 + rsize r2 + 1
  | .star r => rsize r + 1

/-- Is the character at position `i` of `s` a word character?  Positions
outside the string count as non-word. -/
def wordAt (s : Str) (i : Nat) : Bool :=
  match s[i]? with
  | some c => isWordChar c
  | none => false

/-- JS `\b`: exactly one of the two neighbouring positions holds a word
character. -/
def isBoundary (s : Str) (i : Nat) : Bool :=
  (if i = 0 then false else wordAt s (i - 1)) != wordAt s i

/-- All end positions from which the rest of the subject can follow a match
of `r` starting at position `i` of `s`.  Fueled to stay structurally
recursive; every constructor consumes one unit of fuel.  A `star` iteration
that consumes no input is not repeated (as in JS, which breaks empty star
loops), so with sufficient fuel the result is exactly the set of match ends.
The fuel `fuelR` below over-approximates the recursion depth: along any
branch of the call tree each step either shrinks the regex or, for the
`star` unfolding, strictly advances the position, so the depth is at most
`rsize r` plus `s.length + 1` per star node. -/
def endsF (s : Str) : Nat → Regex → Nat → List Nat
  | 0, _, _ => []
  | fuel + 1, r, i =>
    match r with
    | .eps => [i]
    | .ch c =>
      match s[i]? with
      | some c' => if c' = c then [i + 1] else []
      | none => []
    | .any =>
      match s[i]? with
      | some c' => if c' = '\n' then [] else [i + 1]
      | none => []
    | .cc items =>
      match s[i]? with
      | some c' => if items.any (ccItemMatch c') then [i + 1] else []
      | none => []
    | .seq r1 r2 => (endsF s fuel r1 i).flatMap (fun j => endsF s fuel r2 j)
    | .alt r1 r2 => endsF s fuel r1 i ++ endsF s fuel r2 i
    | .star r =>
      i :: ((endsF s fuel r i).filter (fun j => i < j && j ≤ s.length)).flatMap
        (fun j => endsF s fuel (.star r) j)
    | .bos => if i = 0 then [i] else []
    | .eos => if i = s.length then [i] else []
    | .wb => if isBoundary s i then [i] else []

/-- A sufficient matcher fuel for subject `s` and regex `r` (see `endsF`). -/
def fuelR (s : Str) (r : Regex) : Nat := (rsize r + 1) * (s.length + 4)

/-- JS `r.test(s)`: some match of `r` starts at some position of `s`. -/
def rtest (s : Str) (r : Regex) : Bool :=
  (List.range (s.length + 1)).any (fun i => !(endsF s (fuelR s r) r i).isEmpty)

/-! ### Regex construction helpers (for transliterating the JS literals) -/

/-- Concatenation of a list of regexes. -/
def rcat (l : List Regex) : Regex := l.foldr .seq .eps

/-- A literal string regex. -/
def rlit (s : String) : Regex := rcat (s.toList.map .ch)

/-- `r?` (greediness is irrelevant for `test`). -/
def ropt (r : Regex) : Regex := .alt r .eps

/-- `r+`. -/
def rplus (r : Regex) : Regex := .seq r (.star r)

/-- `\w`. -/
def wCls : Regex :=
  .cc [.range 'a' 'z', .range 'A' 'Z', .range '0' '9', .ch '_']

/-- `\s`. -/
def sCls : Regex :=
  .cc [.ch ' ', .ch '\t', .ch '\n', .ch '\r', .ch (Char.ofNat 11), .ch (Char.ofNat 12)]

/-- Alternation of a non-empty list of regexes, `(a|b|…)`. -/
def ralts : List Regex → Regex
  | [] => .eps
  | [r] => r
  | r :: t => .alt r (ralts t)

/-! ## Safety classifier (`src/safety/commandSafety.ts`) -/

/-- The four risk tiers. -/
inductive RiskLevel : Type
  | safe
  | mutating
  | destructive
  | blocked
deriving DecidableEq

/-- A safety verdict: tier plus human-readable reason.  The optional
`suggestion` field of the source interface is never set by the two analysis
functions and is omitted. -/
structure SafetyVerdict : Type where
  level : RiskLevel
  reason : Str
deriving DecidableEq

/-- A pattern table entry: regex plus reason. -/
structure PatternEntry : Type where
  pattern : Regex
  reason : Str
deriving DecidableEq

/-- `BLOCKED_PATTERNS` (deny outright). -/
def BLOCKED_PATTERNS : List PatternEntry := [
  -- /rm\s+(-\w*)?r\w*\s+(-\w*\s+)*\//
  ⟨rcat [rlit "rm", rplus sCls, ropt (rcat [.ch '-', .star wCls]), .ch 'r', .star wCls,
      rplus sCls, .star (rcat [.ch '-', .star wCls, rplus sCls]), .ch '/'],
    str "Recursive deletion at filesystem root"⟩,
  -- /rm\s+(-\w*)?r\w*\s+(-\w*\s+)*~/
  ⟨rcat [rlit "rm", rplus sCls, ropt (rcat [.ch '-', .star wCls]), .ch 'r', .star wCls,
      rplus sCls, .star (rcat [.ch '-', .star wCls, rplus sCls]), .ch '~'],
    str "Recursive deletion of home directory"⟩,
  -- /:\(\)\s*\{\s*:\s*\|\s*:\s*&\s*\}\s*;?\s*:/
  ⟨rcat [rlit ":()", .star sCls, .ch (Char.ofNat 123), .star sCls, .ch ':', .star sCls,
      .ch '|', .star sCls, .ch ':', .star sCls, .ch '&', .star sCls, .ch (Char.ofNat 125),
      .star sCls, ropt (.ch ';'), .star sCls, .ch ':'],
    str "Fork bomb"⟩,
  -- />\s*\/dev\/[sh]d[a-z]/
  ⟨rcat [.ch '>', .star sCls, rlit "/dev/", .cc [.ch 's', .ch 'h'], .ch 'd',
      .cc [.range 'a' 'z']],
    str "Direct write to block device"⟩,
  -- /mkfs\b/
  ⟨.seq (rlit "mkfs") .wb, str "Filesystem format command"⟩,
  -- /dd\s.*\bof=\/dev\//
  ⟨rcat [rlit "dd", sCls, .star .any, .wb, rlit "of=/dev/"],
    str "Direct disk write via dd"⟩,
  -- /rm\s+(-\w*)?r\w*\s+(-\w*\s+)*\.\s*$/
  ⟨rcat [rlit "rm", rplus sCls, ropt (rcat [.ch '-', .star wCls]), .ch 'r', .star wCls,
      rplus sCls, .star (rcat [.ch '-', .star wCls, rplus sCls]), .ch '.', .star sCls, .eos],
    str "Recursive deletion of current directory"⟩,
  -- /:\s*>\s*\/etc\//
  ⟨rcat [.ch ':', .star sCls, .ch '>', .star sCls, rlit "/etc/"],
    str "Truncating system configuration file"⟩,
  -- /curl\s.*\|\s*(sudo\s+)?(ba)?sh/
  ⟨rcat [rlit "curl", sCls, .star .any, .ch '|', .star sCls,
      ropt (.seq (rlit "sudo") (rplus sCls)), ropt (rlit "ba"), rlit "sh"],
    str "Piping remote script directly into shell"⟩,
  -- /wget\s.*\|\s*(sudo\s+)?(ba)?sh/
  ⟨rcat [rlit "wget", sCls, .star .any, .ch '|', .star sCls,
      ropt (.seq (rlit "sudo") (rplus sCls)), ropt (rlit "ba"), rlit "sh"],
    str "Piping remote script directly into shell"⟩]

/-- `DESTRUCTIVE_COMMANDS` (always prompt, even with `--allow-shell`). -/
def DESTRUCTIVE_COMMANDS : List PatternEntry := [
  ⟨rcat [.wb, rlit "rm", sCls], str "File deletion"⟩,                       -- /\brm\s/
  ⟨rcat [.wb, rlit "rm", .eos], str "File deletion"⟩,                       -- /\brm$/
  ⟨rcat [.wb, rlit "dd", .wb], str "Low-level data copy"⟩,                  -- /\bdd\b/
  -- /\bchmod\s+(-\w*)?R/
  ⟨rcat [.wb, rlit "chmod", rplus sCls, ropt (.seq (.ch '-') (.star wCls)), .ch 'R'],
    str "Recursive permission change"⟩,
  -- /\bchown\s+(-\w*)?R/
  ⟨rcat [.wb, rlit "chown", rplus sCls, ropt (.seq (.ch '-') (.star wCls)), .ch 'R'],
    str "Recursive ownership change"⟩,
  -- /\bkill\s+(-\w*)?9/
  ⟨rcat [.wb, rlit "kill", rplus sCls, ropt (.seq (.ch '-') (.star wCls)), .ch '9'],
    str "Force kill process"⟩,
  ⟨rcat [.wb, rlit "killall", .wb], str "Kill processes by name"⟩,          -- /\bkillall\b/
  ⟨rcat [.wb, rlit "pkill", .wb], str "Kill processes by pattern"⟩,         -- /\bpkill\b/
  ⟨rcat [.wb, rlit "sudo", .wb], str "Elevated privileges"⟩,                -- /\bsudo\b/
  ⟨rcat [.wb, rlit "su", sCls], str "Switch user"⟩,                         -- /\bsu\s/
  ⟨rcat [.wb, rlit "shutdown", .wb], str "System shutdown"⟩,                -- /\bshutdown\b/
  ⟨rcat [.wb, rlit "reboot", .wb], str "System reboot"⟩,                    -- /\breboot\b/
  -- /\bsystemctl\s+(stop|restart|disable)/
  ⟨rcat [.wb, rlit "systemctl", rplus sCls, ralts [rlit "stop", rlit "restart", rlit "disable"]],
    str "Service management"⟩,
  ⟨rcat [.wb, rlit "iptables", .wb], str "Firewall rule modification"⟩,     -- /\biptables\b/
  ⟨rcat [.ch '>', .star sCls, .ch '/'], str "Redirect overwrite to absolute path"⟩] -- />\s*\//

/-- A `^\s*name\b` whitelist pattern. -/
def safeCmd (name : String) : Regex := rcat [.bos, .star sCls, rlit name, .wb]

/-- `SAFE_COMMANDS` (auto-approve with `--allow-shell`). -/
def SAFE_COMMANDS : List Regex := [
  safeCmd "ls", safeCmd "cat", safeCmd "head", safeCmd "tail", safeCmd "less",
  safeCmd "more", safeCmd "echo", safeCmd "pwd", safeCmd "whoami", safeCmd "which",
  safeCmd "where", safeCmd "type", safeCmd "file", safeCmd "wc", safeCmd "du",
  safeCmd "df", safeCmd "date", safeCmd "uname", safeCmd "env", safeCmd "printenv",
  safeCmd "find", safeCmd "grep", safeCmd "rg", safeCmd "ag", safeCmd "fd",
  safeCmd "tree", safeCmd "diff", safeCmd "stat", safeCmd "readlink", safeCmd "realpath",
  -- /^\s*git\s+(status|log|diff|show|branch|tag|remote|stash\s+list)\b/
  rcat [.bos, .star sCls, rlit "git", rplus sCls,
    ralts [rlit "status", rlit "log", rlit "diff", rlit "show", rlit "branch",
      rlit "tag", rlit "remote", rcat [rlit "stash", rplus sCls, rlit "list"]], .wb],
  -- /^\s*node\s+(-v|--version)\b/
  rcat [.bos, .star sCls, rlit "node", rplus sCls, ralts [rlit "-v", rlit "--version"], .wb],
  -- /^\s*npm\s+(ls|list|view|info|outdated|audit)\b/
  rcat [.bos, .star sCls, rlit "npm", rplus sCls,
    ralts [rlit "ls", rlit "list", rlit "view", rlit "info", rlit "outdated", rlit "audit"], .wb],
  -- /^\s*pnpm\s+(ls|list|outdated|audit)\b/
  rcat [.bos, .star sCls, rlit "pnpm", rplus sCls,
    ralts [rlit "ls", rlit "list", rlit "outdated", rlit "audit"], .wb],
  -- /^\s*npx\s+tsc\s+--noEmit\b/
  rcat [.bos, .star sCls, rlit "npx", rplus sCls, rlit "tsc", rplus sCls, rlit "--noEmit", .wb],
  -- /^\s*python3?\s+(-V|--version)\b/
  rcat [.bos, .star sCls, rlit "python", ropt (.ch '3'), rplus sCls,
    ralts [rlit "-V", rlit "--version"], .wb],
  -- /^\s*cargo\s+(check|clippy|test)\b/
  rcat [.bos, .star sCls, rlit "cargo", rplus sCls,
    ralts [rlit "check", rlit "clippy", rlit "test"], .wb],
  -- /^\s*go\s+(vet|test)\b/
  rcat [.bos, .star sCls, rlit "go", rplus sCls, ralts [rlit "vet", rlit "test"], .wb]]

/-- `^~?\/?` followed by `rest`, shared shape of the write-path patterns. -/
def tildePat (rest : Regex) : Regex :=
  rcat [.bos, ropt (.ch '~'), ropt (.ch '/'), rest]

/-- `BLOCKED_WRITE_PATHS`. -/
def BLOCKED_WRITE_PATHS : List PatternEntry := [
  ⟨.seq .bos (rlit "/etc/"), str "System configuration directory"⟩,    -- /^\/etc\//
  ⟨.seq .bos (rlit "/usr/"), str "System binaries directory"⟩,         -- /^\/usr\//
  ⟨.seq .bos (rlit "/bin/"), str "System binaries directory"⟩,         -- /^\/bin\//
  ⟨.seq .bos (rlit "/sbin/"), str "System binaries directory"⟩,        -- /^\/sbin\//
  ⟨.seq .bos (rlit "/boot/"), str "Boot configuration directory"⟩,     -- /^\/boot\//
  ⟨.seq .bos (rlit "/dev/"), str "Device directory"⟩,                  -- /^\/dev\//
  ⟨.seq .bos (rlit "/proc/"), str "Proc filesystem"⟩,                  -- /^\/proc\//
  ⟨.seq .bos (rlit "/sys/"), str "Sys filesystem"⟩,                    -- /^\/sys\//
  ⟨tildePat (rlit ".ssh/"), str "SSH keys directory"⟩,                 -- /^~?\/?\.ssh\//
  ⟨tildePat (rlit ".gnupg/"), str "GPG keys directory"⟩,               -- /^~?\/?\.gnupg\//
  ⟨tildePat (rlit ".aws/credentials"), str "AWS credentials file"⟩,    -- /^~?\/?\.aws\/credentials/
  ⟨tildePat (rlit ".azure/"), str "Azure credentials directory"⟩,      -- /^~?\/?\.azure\//
  ⟨tildePat (rlit ".kube/config"), str "Kubernetes config file"⟩,      -- /^~?\/?\.kube\/config/
  ⟨tildePat (.seq (rlit ".env") .eos), str "Environment secrets file"⟩,       -- /^~?\/?\.env$/
  ⟨tildePat (.seq (rlit ".env.local") .eos), str "Environment secrets file"⟩] -- /^~?\/?\.env\.local$/

/-- `DESTRUCTIVE_WRITE_PATHS`. -/
def DESTRUCTIVE_WRITE_PATHS : List PatternEntry := [
  ⟨tildePat (.seq (rlit ".bashrc") .eos), str "Shell configuration file"⟩,      -- /^~?\/?\.bashrc$/
  ⟨tildePat (.seq (rlit ".zshrc") .eos), str "Shell configuration file"⟩,       -- /^~?\/?\.zshrc$/
  ⟨tildePat (.seq (rlit ".profile") .eos), str "Shell configuration file"⟩,     -- /^~?\/?\.profile$/
  ⟨tildePat (.seq (rlit ".bash_profile") .eos), str "Shell configuration file"⟩, -- /^~?\/?\.bash_profile$/
  ⟨tildePat (.seq (rlit ".gitconfig") .eos), str "Global git configuration"⟩,   -- /^~?\/?\.gitconfig$/
  ⟨tildePat (.seq (rlit ".npmrc") .eos), str "npm configuration"⟩]              -- /^~?\/?\.npmrc$/

/-- Scan chained/piped segments with the recursive analysis `rec`,
returning the first verdict that is `blocked` or `destructive` (the body of
the two `for` loops inside `analyseCommand`).  `skipEmpty` models the
`if (!seg) continue;` of the chain loop. -/
def scanSegs (recur : Str → SafetyVerdict) (skipEmpty : Bool) (segs : List Str) :
    Option SafetyVerdict :=
  segs.findSome? (fun seg =>
    if skipEmpty && seg.isEmpty then none
    else
      let v := recur seg
      if v.level = .blocked ∨ v.level = .destructive then some v else none)

/-- The body of `analyseCommand`, parameterised by the recursive call for
segment analysis (`none` when the recursion fuel is exhausted: the two
segment-recursion blocks are then skipped, which is reachable only for
inputs containing no `|`, `;` or `&`, where the source skips the blocks
anyway). -/
def analyseBody (recur : Option (Str → SafetyVerdict)) (command : Str) : SafetyVerdict :=
  let trimmed := trim command
  match BLOCKED_PATTERNS.find? (fun e => rtest trimmed e.pattern) with
  | some e => ⟨.blocked, str "Blocked: " ++ e.reason⟩
  | none =>
    match DESTRUCTIVE_COMMANDS.find? (fun e => rtest trimmed e.pattern) with
    | some e => ⟨.destructive, e.reason⟩
    | none =>
      let pipeHit :=
        match recur, trimmed.contains '|' with
        | some f, true =>
          scanSegs f false ((splitOnPred (· == '|') trimmed).map trim)
        | _, _ => none
      match pipeHit with
      | some v => v
      | none =>
        let chainHit :=
          match recur, trimmed.any (fun c => c == ';' || c == '&') with
          | some f, true =>
            scanSegs f true ((splitRuns (fun c => c == ';' || c == '&') trimmed).map trim)
          | _, _ => none
        match chainHit with
        | some v => v
        | none =>
          let firstSegment :=
            ((splitOnPred (fun c => c == '|' || c == ';' || c == '&') trimmed).map trim).getD
              0 trimmed
          if SAFE_COMMANDS.any (fun p => rtest firstSegment p) then
            ⟨.safe, str "Read-only command"⟩
          else
            ⟨.mutating, str "May modify files or system state"⟩

/-- `analyseCommand` with explicit recursion fuel for the segment
recursion. -/
def analyseCommandF : Nat → Str → SafetyVerdict
  | 0 => analyseBody none
  | fuel + 1 => analyseBody (some (analyseCommandF fuel))

/-- `analyseCommand` of `src/safety/commandSafety.ts`.  Fuel 2 reproduces
the source exactly: the source's segment recursion has depth at most 2
(line → pipe/chain segments → sub-segments), and sub-segments contain no
separator characters, so at depth 2 the recursion blocks are skipped by the
`includes`/regex tests themselves. -/
def analyseCommand (command : Str) : SafetyVerdict := analyseCommandF 2 command

/-- `filePath.replace(/^~/, home)`. -/
def homeExpand (home : Str) (s : Str) : Str :=
  match s with
  | '~' :: rest => home ++ rest
  | _ => s

/-- `analyseWritePath` of `src/safety/commandSafety.ts`.  `home` models
`process.env.HOME ?? '~'`. -/
def analyseWritePath (home : Str) (filePath : Str) : SafetyVerdict :=
  let normalised := homeExpand home filePath
  match BLOCKED_WRITE_PATHS.find?
      (fun e => rtest filePath e.pattern || rtest normalised e.pattern) with
  | some e => ⟨.blocked, str "Blocked: writing to " ++ e.reason⟩
  | none =>
    match DESTRUCTIVE_WRITE_PATHS.find?
        (fun e => rtest filePath e.pattern || rtest normalised e.pattern) with
    | some e => ⟨.destructive, e.reason⟩
    | none => ⟨.mutating, str "File write"⟩

/-! ## Permission manager (`src/ui/permissions.ts`) -/

/-- Session permission state. -/
structure PermissionState : Type where
  alwaysWrite : Bool
  alwaysShell : Bool
deriving DecidableEq

/-- The string fields of the parsed JSON arguments object that
`PermissionManager.check` reads (`String(args['command'] ?? '')`,
`String(args['path'] ?? '')`); an absent field reads as the empty string. -/
structure CheckArgs : Type where
  path : Option Str := none
  command : Option Str := none
deriving DecidableEq

/-- The decision reached by `PermissionManager.check` before any user
interaction: allow or deny immediately, or put a question to the user
(`promptDestructive` is the y/n prompt with the escalation reason shown and
the "always" answer suppressed; `promptNormal` is the y/n/always prompt). -/
inductive CheckOutcome : Type
  | allow
  | deny
  | promptNormal
  | promptDestructive (reason : Str)
deriving DecidableEq

/-- The control flow of `PermissionManager.check` up to the point where it
either returns or calls `promptUser`.  `isTTY` models
`process.stdin.isTTY`; `home` parameterises `analyseWritePath`. -/
def checkDecision (st : PermissionState) (isTTY : Bool) (home : Str)
    (toolName : Str) (args : CheckArgs) : CheckOutcome :=
  if toolName = str "read_file" then .allow
  else if toolName = str "exec_shell" then
    let command := args.command.getD []
    let verdict := analyseCommand command
    if verdict.level = .blocked then .deny
    else if verdict.level = .safe ∧ st.alwaysShell then .allow
    else if verdict.level = .destructive then
      if !isTTY then .deny else .promptDestructive verdict.reason
    else if st.alwaysShell then .allow
    else if !isTTY then .deny
    else .promptNormal
  else if toolName = str "write_file" then
    let filePath := args.path.getD []
    let verdict := analyseWritePath home filePath
    if verdict.level = .blocked then .deny
    else if verdict.level = .destructive then
      if !isTTY then .deny else .promptDestructive verdict.reason
    else if st.alwaysWrite then .allow
    else if !isTTY then .deny
    else .promptNormal
  else .deny

/-! ## Canonical message types (`src/providers/provider.ts`) -/

/-- Message roles. -/
inductive Role : Type
  | system
  | user
  | assistant
  | tool
deriving DecidableEq

/-- A fully-assembled tool call (the constant `type: 'function'` tag is
omitted; `name`/`arguments` are the fields of the nested `function`
object). -/
structure ToolCall : Type where
  id : Str
  name : Str
  arguments : Str
deriving DecidableEq

/-- A canonical chat message (`content : string | null`). -/
structure ChatMessage : Type where
  role : Role
  content : Option Str
  toolCallId : Option Str := none
  toolCalls : List ToolCall := []
deriving DecidableEq

/-- `systemMessage` of `src/core/messages.ts`. -/
def systemMessage (content : Str) : ChatMessage := ⟨.system, some content, none, []⟩

/-- `userMessage` of `src/core/messages.ts`. -/
def userMessage (content : Str) : ChatMessage := ⟨.user, some content, none, []⟩

/-- `assistantMessage` of `src/core/messages.ts` (the `toolCalls` field is
set only when the list is non-empty; an absent field is modelled as `[]`,
which the loop's emptiness test treats identically). -/
def assistantMessage (content : Option Str) (toolCalls : List ToolCall) : ChatMessage :=
  ⟨.assistant, content, none, if toolCalls.length > 0 then toolCalls else []⟩

/-- `toolResultMessage` of `src/core/messages.ts`. -/
def toolResultMessage (toolCallId : Str) (content : Str) : ChatMessage :=
  ⟨.tool, some content, some toolCallId, []⟩

/-! ## Tool dispatch (`src/tools/index.ts`) and the agent loop
(`src/core/agent.ts`, the variant whose `runAgent` takes
`onPermissionRequest`) -/

/-- The string fields of a parsed JSON arguments object that the three tool
executors read. -/
structure JsonObj : Type where
  path : Option Str := none
  content : Option Str := none
  command : Option Str := none
deriving DecidableEq

/-- The empty JSON object `{}`. -/
def emptyObj : JsonObj := {}

/-- `DANGEROUS_TOOLS` of `src/core/agent.ts`. -/
def DANGEROUS_TOOLS : List Str := [str "write_file", str "edit_file", str "exec_shell"]

/-- The environment of one `runAgent` invocation: the provider (modelled as
a function from the current conversation to the assistant message obtained
from it, covering both the streaming and the non-streaming branch of the
loop), `JSON.parse` restricted to the argument objects (`none` models a
parse exception), the optional `onPermissionRequest` callback, and the
effect of the three tool executors (`Except.error` models a thrown
`ToolError`). -/
structure AgentEnv : Type where
  respond : List ChatMessage → ChatMessage
  jparse : Str → Option JsonObj
  perm : Option (Str → JsonObj → Bool)
  execRead : JsonObj → Except Str Str
  execWrite : JsonObj → Except Str Str
  execShell : JsonObj → Except Str Str

/-- `executeTool` of `src/tools/index.ts`: re-parse the arguments string
(throwing a `ToolError` on failure) and dispatch on the tool name. -/
def executeToolM (env : AgentEnv) (tc : ToolCall) : Except Str Str :=
  match env.jparse tc.arguments with
  | none => .error (str "Failed to parse arguments for tool \"" ++ tc.name ++ str "\"")
  | some args =>
    if tc.name = str "read_file" then env.execRead args
    else if tc.name = str "write_file" then env.execWrite args
    else if tc.name = str "exec_shell" then env.execShell args
    else .error (str "Unknown tool: " ++ tc.name)

/-- The `try { executeTool } catch` of the loop body: a thrown error
becomes the result string `"Error: " + message`. -/
def execResultM (env : AgentEnv) (tc : ToolCall) : Str :=
  match executeToolM env tc with
  | .ok s => s
  | .error e => str "Error: " ++ e

/-- One iteration of the `for (const tc of responseMessage.toolCalls)`
body, acting on (conversation, toolCallCount). -/
def processToolCall (env : AgentEnv) (st : List ChatMessage × Nat) (tc : ToolCall) :
    List ChatMessage × Nat :=
  let msgs := st.1
  let count := st.2 + 1
  let args := (env.jparse tc.arguments).getD emptyObj
  if DANGEROUS_TOOLS.contains tc.name then
    let allowed := match env.perm with
      | some f => f tc.name args
      | none => false
    if !allowed then
      let deniedMsg := str "Permission denied by user. The user did not allow " ++
        tc.name ++ str "."
      (msgs ++ [toolResultMessage tc.id deniedMsg], count)
    else
      (msgs ++ [toolResultMessage tc.id (execResultM env tc)], count)
  else
    (msgs ++ [toolResultMessage tc.id (execResultM env tc)], count)

/-- The result of `runAgent`.  `durationMs` (wall-clock time) is not
modelled; `providerCalls` instruments the number of provider invocations
(= loop iterations performed). -/
structure AgentResult : Type where
  messages : List ChatMessage
  finalContent : Str
  toolCallCount : Nat
  providerCalls : Nat
deriving DecidableEq

/-- The `for (let iteration = 0; iteration < maxIter; iteration++)` loop of
`runAgent`; `fuel` is the number of remaining iterations. -/
def agentLoop (env : AgentEnv) : Nat → List ChatMessage → Nat → Nat → AgentResult
  | 0, msgs, toolCallCount, providerCalls =>
    ⟨msgs, str "[Agent reached maximum iteration limit]", toolCallCount, providerCalls⟩
  | fuel + 1, msgs, toolCallCount, providerCalls =>
    let responseMessage := env.respond msgs
    let msgs := msgs ++ [responseMessage]
    if responseMessage.toolCalls.isEmpty then
      ⟨msgs, responseMessage.content.getD [], toolCallCount, providerCalls + 1⟩
    else
      let st := responseMessage.toolCalls.foldl (processToolCall env) (msgs, toolCallCount)
      agentLoop env fuel st.1 st.2 (providerCalls + 1)

/-- `runAgent` of `src/core/agent.ts` (permission-gated variant).
`sysPrompt` stands for the fixed `SYSTEM_PROMPT` constant of
`src/core/prompts.ts` (an opaque text no claim inspects). -/
def runAgentM (env : AgentEnv) (sysPrompt : Str) (history : List ChatMessage)
    (maxIterations : Option Nat) : AgentResult :=
  agentLoop env (maxIterations.getD 20) (systemMessage sysPrompt :: history) 0 0

/-! ## Streaming assembler (`handleStreaming` of `src/core/agent.ts`) -/

/-- A partial tool call as delivered in a stream chunk
(`Partial<ToolCall>`): optional id and optional `function` fields.  An
absent `function` object reads as both sub-fields absent, which is how the
assembler accesses it (`tc.function?.name`, `tc.function?.arguments`). -/
structure ToolCallFrag : Type where
  id : Option Str := none
  name : Option Str := none
  arguments : Option Str := none
deriving DecidableEq

/-- A stream chunk delta (the `role` and `finishReason` fields are never
read by `handleStreaming` and are omitted). -/
structure StreamChunk : Type where
  content : Option Str := none
  toolCalls : Option (List ToolCallFrag) := none
deriving DecidableEq

/-- JS truthiness of an optional string. -/
def truthyOpt : Option Str → Bool
  | some s => !s.isEmpty
  | none => false

/-- One step of the tool-call-delta accumulation of `handleStreaming`,
acting on the `toolCallsMap` (a map keyed by `number`, modelled as an
association list in insertion order — the source only ever inserts fresh
integer keys, so insertion order is key order):

    const idx = toolCallsMap.size; // simplified: assume sequential
    const existing = toolCallsMap.get(idx);
    if (!existing && tc.id) { toolCallsMap.set(idx, …) }
    else if (existing) { append arguments; append name }
-/
def stepFrag (m : List (Nat × ToolCall)) (tc : ToolCallFrag) : List (Nat × ToolCall) :=
  let idx := m.length
  let existing := (m.find? (fun p => p.1 = idx)).map (·.2)
  match existing with
  | none =>
    if truthyOpt tc.id then
      m ++ [(idx, ⟨tc.id.getD [], tc.name.getD [], tc.arguments.getD []⟩)]
    else m
  | some ex =>
    let ex := if truthyOpt tc.arguments then
        { ex with arguments := ex.arguments ++ tc.arguments.getD [] } else ex
    let ex := if truthyOpt tc.name then
        { ex with name := ex.name ++ tc.name.getD [] } else ex
    m.map (fun p => if p.1 = idx then (p.1, ex) else p)

/-- `handleStreaming`: fold over the stream chunks, accumulating text
content and tool-call fragments, then build the assistant message. -/
def handleStreamingM (chunks : List StreamChunk) : ChatMessage :=
  let st := chunks.foldl
    (fun (st : Str × List (Nat × ToolCall)) ch =>
      let st := if truthyOpt ch.content then (st.1 ++ ch.content.getD [], st.2) else st
      match ch.toolCalls with
      | none => st
      | some frags => (st.1, frags.foldl stepFrag st.2))
    ([], [])
  let toolCalls := st.2.map (·.2)
  assistantMessage (if st.1.isEmpty then none else some st.1) toolCalls

/-! ## File editing (`src/tools/editFile.ts`) -/

/-- JS `s.split(sep)` for a non-empty string separator, fueled
(`s.length + 1` always suffices: each split consumes at least one
character). -/
def splitStrF (sep : Str) : Nat → Str → List Str
  | 0, s => [s]
  | fuel + 1, s =>
    match firstOccAux sep s with
    | none => [s]
    | some p => s.take p :: splitStrF sep fuel (s.drop (p + sep.length))

/-- JS `s.split(sep)`: an empty separator splits into single characters. -/
def splitStr (sep s : Str) : List Str :=
  if sep = [] then s.map (fun c => [c]) else splitStrF sep (s.length + 1) s

/-- Specification: replace every non-overlapping occurrence of `old`,
greedily left to right (fueled; `s.length + 1` suffices for `old ≠ []`). -/
def replaceAllF (old new : Str) : Nat → Str → Str
  | 0, s => s
  | fuel + 1, s =>
    if old.isPrefixOf s ∧ old ≠ [] then new ++ replaceAllF old new fuel (s.drop old.length)
    else
      match s with
      | [] => []
      | c :: t => c :: replaceAllF old new fuel t

/-- Replace every non-overlapping occurrence of `old` in `s` by `new`. -/
def replaceAllG (old new s : Str) : Str := replaceAllF old new (s.length + 1) s

/-- Specification: replace the first occurrence of `old` (if any). -/
def replaceFirstG (old new : Str) : Str → Str
  | [] => []
  | c :: t =>
    if old.isPrefixOf (c :: t) then new ++ (c :: t).drop old.length
    else c :: replaceFirstG old new t

/-- The number of lines of `s` in the JS sense (`s.split('\n').length`). -/
def lineCount (s : Str) : Nat := (splitOnPred (· == '\n') s).length

/-- `buildDiffPreview` of `src/tools/editFile.ts`: a context snippet of up
to three lines around the first replacement site. -/
def buildDiffPreview (original newContent oldString newString : Str) : Str :=
  match firstOccAux oldString original with
  | none => []
  | some pos =>
    let beforeReplace := original.take pos
    let startLine := (splitOnPred (· == '\n') beforeReplace).length - 1
    let oldLines := splitOnPred (· == '\n') oldString
    let newLines := splitOnPred (· == '\n') newString
    let allNewLines := splitOnPred (· == '\n') newContent
    let contextStart := startLine - 3
    let contextEnd := min allNewLines.length (startLine + newLines.length + 3)
    let origAllLines := splitOnPred (· == '\n') original
    let oldEnd := min origAllLines.length (startLine + oldLines.length + 3)
    let oldContextStart := startLine - 3
    let beforeParts := (List.range' oldContextStart (oldEnd - oldContextStart)).map
      (fun i =>
        let pre := if startLine ≤ i ∧ i < startLine + oldLines.length then str "- "
          else str "  "
        str "  " ++ pre ++ origAllLines.getD i [])
    let afterParts := (List.range' contextStart (contextEnd - contextStart)).map
      (fun i =>
        let pre := if startLine ≤ i ∧ i < startLine + newLines.length then str "+ "
          else str "  "
        str "  " ++ pre ++ allNewLines.getD i [])
    List.intercalate (str "\n")
      ((str "  --- before" :: beforeParts) ++ (str "  +++ after" :: afterParts))

/-- The outcome of `executeEditFile`: a thrown `ToolError`, or the new file
content (the write) together with the returned summary string. -/
inductive EditResult : Type
  | err (msg : Str)
  | ok (newContent : Str) (output : Str)
deriving DecidableEq

/-- `executeEditFile` of `src/tools/editFile.ts`, given the resolved
absolute target path, the current file content, and the tool arguments.
The initial file read and the final write are modelled by taking `content`
as input and returning the written content in `EditResult.ok`; an
`EditResult.err` leaves the file untouched (the source throws before
writing).  The outer `Option` reflects the counting loop: `none` models its
non-termination (reachable only for an empty `old_string`). -/
def executeEditFile (target content oldStr newStr : Str) (replaceAll : Bool) :
    Option EditResult :=
  match countOccurrences content oldStr with
  | none => none
  | some count =>
    if count = 0 then
      some (.err (str "old_string not found in \"" ++ target ++
        str "\". Make sure the text matches exactly, including whitespace and indentation."))
    else if count > 1 ∧ !replaceAll then
      some (.err (str "old_string matches " ++ natStr count ++ str " locations in \"" ++
        target ++
        str "\". Provide more surrounding context to uniquely identify the edit, or set replace_all to true."))
    else
      let newContent :=
        if replaceAll then List.intercalate newStr (splitStr oldStr content)
        else
          match indexOfFrom content oldStr 0 with
          | some pos => content.take pos ++ newStr ++ content.drop (pos + oldStr.length)
          | none => content   -- unreachable: count ≥ 1 implies an occurrence exists
      let replacements := if replaceAll then count else 1
      let oldLineCount := lineCount content
      let newLineCount := lineCount newContent
      let lineDelta : Int := (newLineCount : Int) - (oldLineCount : Int)
      let lineDeltaStr :=
        if lineDelta = 0 then str "no line count change"
        else if lineDelta > 0 then
          str "+" ++ intStr lineDelta ++ str " line" ++ (if lineDelta ≠ 1 then str "s" else [])
        else
          intStr lineDelta ++ str " line" ++ (if lineDelta ≠ -1 then str "s" else [])
      let preview := buildDiffPreview content newContent oldStr newStr
      let summary := str "Edited " ++ target ++ str ": replaced " ++ natStr replacements ++
        str " occurrence" ++ (if replacements ≠ 1 then str "s" else []) ++
        str " (" ++ lineDeltaStr ++ str ")"
      some (.ok newContent (if !preview.isEmpty then summary ++ str "\n" ++ preview else summary))

/-- A default message used as fallback for indexed access in statements. -/
def noMsg : ChatMessage := ⟨.system, none, none, []⟩

/-- A mock two-turn provider environment (first response, then a terminal
response), with unparseable tool arguments and a constant permission
answer: the test fixture used by concrete witnesses. -/
def mkScriptEnv (first second : ChatMessage) (permAns : Bool) : AgentEnv :=
  { respond := fun msgs =>
      if (msgs.filter (fun m => m.role = Role.assistant)).length = 0 then first else second,
    jparse := fun _ => none,
    perm := some (fun _ _ => permAns),
    execRead := fun _ => .ok (str "READ"),
    execWrite := fun _ => .ok (str "WROTE"),
    execShell := fun _ => .ok (str "RAN") }

/-- Fixture: an assistant turn with two tool calls. -/
def c5turn1 : ChatMessage :=
  ⟨.assistant, some (str "using tools"), none,
    [⟨str "id1", str "write_file", str "x"⟩, ⟨str "id2", str "read_file", str "y"⟩]⟩

/-- Fixture: a terminal assistant turn. -/
def c5turn2 : ChatMessage := ⟨.assistant, some (str "done"), none, []⟩

/-- Fixture: a provider that emits one tool call on every turn. -/
def loopEnv : AgentEnv :=
  { respond := fun _ =>
      ⟨.assistant, some (str "again"), none, [⟨str "id", str "read_file", str "x"⟩]⟩,
    jparse := fun _ => none,
    perm := some (fun _ _ => false),
    execRead := fun _ => .ok (str "READ"),
    execWrite := fun _ => .ok (str "WROTE"),
    execShell := fun _ => .ok (str "RAN") }

/-!
# Theorems
-/

/-- C1: `PermissionManager.check` has no `edit_file` branch: the call falls
through to the unknown-tool default and is denied unconditionally, so it
does not mirror `write_file`.  At the failing input (a `mutating` path
`src/x` with the session `alwaysWrite` flag set, interactive terminal) the
`write_file` check allows immediately while the `edit_file` check denies. -/
theorem C1_edit_file_not_mirrored :
    checkDecision ⟨true, false⟩ true (str "/home/user") (str "edit_file")
        ⟨some (str "src/x"), none⟩ = .deny
    ∧ checkDecision ⟨true, false⟩ true (str "/home/user") (str "write_file")
        ⟨some (str "src/x"), none⟩ = .allow := by
  decide

/-- C2: `handleStreaming` keys fragments by `toolCallsMap.size`, which
always misses (`get(size)` is never a key), so a continuation fragment
without an id is dropped instead of being appended: splitting one tool
call's arguments `"abcdef"` into `"abc"`/`"def"` across two chunks yields
arguments `"abc"`, not `"abcdef"` as when delivered in one chunk. -/
theorem C2_split_fragments_not_reassembled :
    (handleStreamingM
        [⟨none, some [⟨some (str "call_1"), some (str "write_file"), some (str "abc")⟩]⟩,
         ⟨none, some [⟨none, none, some (str "def")⟩]⟩]).toolCalls
      = [⟨str "call_1", str "write_file", str "abc"⟩]
    ∧ (handleStreamingM
        [⟨none, some [⟨some (str "call_1"), some (str "write_file"), some (str "abcdef")⟩]⟩]).toolCalls
      = [⟨str "call_1", str "write_file", str "abcdef"⟩] := by
  decide

/-- If `s.drop i` starts with `c`, position `i` of `s` holds `c`. -/
theorem drop_eq_cons_getElem {s : Str} {i : Nat} {c : Char} {m : Str}
    (h : s.drop i = c :: m) : s[i]? = some c := by
  have h0 : (s.drop i)[0]? = some c := by rw [h]; simp
  rwa [List.getElem?_drop, Nat.add_zero] at h0

/-- Dropping one more character removes the head of `s.drop i`. -/
theorem drop_succ_of_drop_cons {s : Str} {i : Nat} {c : Char} {m : Str}
    (h : s.drop i = c :: m) : s.drop (i + 1) = m := by
  have h0 : (s.drop i).drop 1 = s.drop (i + 1) := by rw [List.drop_drop]
  rw [← h0, h]
  rfl

/-- Size of a literal regex. -/
theorem rsize_rcat_ch (cs : List Char) : rsize (rcat (cs.map .ch)) = 2 * cs.length + 1 := by
  induction cs with
  | nil => rfl
  | cons c cs ih =>
    show rsize (.seq (.ch c) (rcat (cs.map .ch))) = _
    simp only [rsize, ih, List.length_cons]
    omega

/-- A literal regex matches at position `i` whenever the literal occurs
there, given enough fuel. -/
theorem endsF_lit_mem (cs : List Char) (s : Str) (i f : Nat)
    (hpre : ∃ t, s.drop i = cs ++ t) (hf : 2 * cs.length + 1 ≤ f) :
    (i + cs.length) ∈ endsF s f (rcat (cs.map .ch)) i := by
  induction cs generalizing i f with
  | nil =>
    obtain ⟨g, rfl⟩ : ∃ g, f = g + 1 := ⟨f - 1, by omega⟩
    simp [rcat, endsF]
  | cons c cs ih =>
    obtain ⟨t, ht⟩ := hpre
    simp only [List.length_cons] at hf
    obtain ⟨g, rfl⟩ : ∃ g, f = g + 1 := ⟨f - 1, by omega⟩
    obtain ⟨g', hg⟩ : ∃ g', g = g' + 1 := ⟨g - 1, by omega⟩
    have hc : s[i]? = some c := drop_eq_cons_getElem ht
    have hrest : s.drop (i + 1) = cs ++ t := drop_succ_of_drop_cons ht
    have hstep : endsF s g (.ch c) i = [i + 1] := by
      rw [hg]
      simp [endsF, hc]
    have hmem : (i + 1 + cs.length) ∈ endsF s g (rcat (cs.map .ch)) (i + 1) :=
      ih (i + 1) g ⟨t, hrest⟩ (by omega)
    have hsplit : rcat ((c :: cs).map .ch) = .seq (.ch c) (rcat (cs.map .ch)) := rfl
    rw [hsplit]
    show (i + (cs.length + 1)) ∈
      (endsF s g (.ch c) i).flatMap (fun j => endsF s g (rcat (cs.map .ch)) j)
    rw [hstep]
    simp only [List.flatMap_cons, List.flatMap_nil, List.append_nil]
    have harith : i + (cs.length + 1) = i + 1 + cs.length := by omega
    rw [harith]
    exact hmem

/-- A `^`-anchored literal pattern tests true on every string having the
literal as a prefix. -/
theorem rtest_bos_lit (cs : List Char) (s : Str) (hpre : ∃ t, cs ++ t = s) :
    rtest s (.seq .bos (rcat (cs.map .ch))) = true := by
  obtain ⟨t, ht⟩ := hpre
  have hlen : cs.length ≤ s.length := by rw [← ht]; simp
  set r : Regex := .seq .bos (rcat (cs.map .ch)) with hr
  have hfuel : 2 * cs.length + 3 ≤ fuelR s r := by
    have h1 : rsize (rcat (cs.map .ch)) = 2 * cs.length + 1 := rsize_rcat_ch cs
    have h2 : fuelR s r = (2 * cs.length + 4) * (s.length + 4) := by
      simp only [fuelR, hr, rsize, h1]
      ring
    have h3 : (2 * cs.length + 4) * 1 ≤ (2 * cs.length + 4) * (s.length + 4) := by
      apply Nat.mul_le_mul_left
      omega
    omega
  obtain ⟨g, hg⟩ : ∃ g, fuelR s r = g + 1 := ⟨fuelR s r - 1, by omega⟩
  obtain ⟨g', hg'⟩ : ∃ g', g = g' + 1 := ⟨g - 1, by omega⟩
  have hbos : endsF s g .bos 0 = [0] := by
    rw [hg']
    simp [endsF]
  have hmem : (0 + cs.length) ∈ endsF s g (rcat (cs.map .ch)) 0 :=
    endsF_lit_mem cs s 0 g ⟨t, by simpa using ht.symm⟩ (by omega)
  have hne : endsF s (fuelR s r) r 0 ≠ [] := by
    rw [hg]
    show (endsF s g .bos 0).flatMap (fun j => endsF s g (rcat (cs.map .ch)) j) ≠ []
    rw [hbos]
    simp only [List.flatMap_cons, List.flatMap_nil, List.append_nil]
    exact List.ne_nil_of_mem hmem
  rw [rtest, List.any_eq_true]
  refine ⟨0, List.mem_range.mpr (by omega), ?_⟩
  simpa [List.isEmpty_iff] using hne

/-- C3 counterexample: a chained line whose first segment is whitelisted
read-only but whose second segment (`npm install`) is mutating is
classified `safe`, not `mutating` — only `blocked` and `destructive`
segment verdicts propagate, and the safe check looks at the first segment
alone. -/
theorem C3_chain_mutating_segment_counterexample :
    analyseCommand (str "ls;npm install") = ⟨.safe, str "Read-only command"⟩
    ∧ RiskLevel.safe ≠ RiskLevel.mutating := by
  decide

/-- C4 counterexample: the destructive write-path patterns only match the
tilde form (`^~?\/?\.bashrc$`); the home expansion rewrites `~` to `$HOME`
but never contracts an explicit absolute home path, so with
`HOME=/home/user` the explicit path `/home/user/.bashrc` is classified
`mutating`, not `destructive`. -/
theorem C4_absolute_bashrc_counterexample :
    analyseWritePath (str "/home/user") (str "/home/user/.bashrc")
      = ⟨.mutating, str "File write"⟩
    ∧ RiskLevel.mutating ≠ RiskLevel.destructive := by
  decide

/-- C5 counterexample: on denial the appended tool message carries the
denied call's id, but its text is
`"Permission denied by user. The user did not allow write_file."` — it
begins with, but is not equal to, `"Permission denied by user."`. -/
theorem C5_denial_text_counterexample :
    (runAgentM
        { respond := fun msgs =>
            if (msgs.filter (fun m => m.role = Role.assistant)).length = 0 then
              { role := .assistant, content := some (str "using tool"),
                toolCalls := [⟨str "id1", str "write_file", str "x"⟩] }
            else { role := .assistant, content := some (str "done") },
          jparse := fun _ => none,
          perm := some (fun _ _ => false),
          execRead := fun _ => .ok (str "R"),
          execWrite := fun _ => .ok (str "W"),
          execShell := fun _ => .ok (str "S") }
        (str "SP") [userMessage (str "hi")] none).messages.getD 3 noMsg
      = toolResultMessage (str "id1")
          (str "Permission denied by user. The user did not allow write_file.")
    ∧ str "Permission denied by user. The user did not allow write_file."
        ≠ str "Permission denied by user." := by
  decide

/-- C6 counterexample: the empty-object fallback of the agent loop feeds
only the callbacks; `executeTool` re-parses the arguments string itself and
throws on failure, so a tool call with unparseable arguments is never
executed — its result is the tool error
`"Error: Failed to parse arguments for tool \"write_file\""`, not the
executor's output (here `"WROTE"`). -/
theorem C6_unparseable_args_counterexample :
    (runAgentM
        { respond := fun msgs =>
            if (msgs.filter (fun m => m.role = Role.assistant)).length = 0 then
              { role := .assistant, content := some (str "using tool"),
                toolCalls := [⟨str "id1", str "write_file", str "not json"⟩] }
            else { role := .assistant, content := some (str "done") },
          jparse := fun _ => none,
          perm := some (fun _ _ => true),
          execRead := fun _ => .ok (str "READ"),
          execWrite := fun _ => .ok (str "WROTE"),
          execShell := fun _ => .ok (str "RAN") }
        (str "SP") [userMessage (str "hi")] none).messages.getD 3 noMsg
      = toolResultMessage (str "id1")
          (str "Error: Failed to parse arguments for tool \"write_file\"")
    ∧ str "Error: Failed to parse arguments for tool \"write_file\"" ≠ str "WROTE" := by
  decide

/-- C3 amended: on a piped/chained command, `blocked` and `destructive`
segment verdicts propagate (the scans return the first such verdict), but
`mutating` segments do not: once the whole-line pattern checks and both
segment scans come up empty, the verdict is `safe` iff the first segment
matches the read-only whitelist — later segments are not consulted — and
`mutating` otherwise. -/
theorem C3_first_segment_decides_safe_amended (cmd : Str)
    (hb : BLOCKED_PATTERNS.find? (fun e => rtest (trim cmd) e.pattern) = none)
    (hd : DESTRUCTIVE_COMMANDS.find? (fun e => rtest (trim cmd) e.pattern) = none)
    (hp : (trim cmd).contains '|' = true →
      scanSegs (analyseCommandF 1) false ((splitOnPred (· == '|') (trim cmd)).map trim) = none)
    (hc : (trim cmd).any (fun c => c == ';' || c == '&') = true →
      scanSegs (analyseCommandF 1) true
        ((splitRuns (fun c => c == ';' || c == '&') (trim cmd)).map trim) = none) :
    analyseCommand cmd =
      if SAFE_COMMANDS.any (fun p => rtest
          ((((splitOnPred (fun c => c == '|' || c == ';' || c == '&') (trim cmd)).map trim).getD
            0 (trim cmd))) p) then
        ⟨.safe, str "Read-only command"⟩
      else ⟨.mutating, str "May modify files or system state"⟩ := by
  have h0 : analyseCommand cmd = analyseBody (some (analyseCommandF 1)) cmd := rfl
  rw [h0]
  unfold analyseBody
  simp only [hb, hd]
  cases hcont : (trim cmd).contains '|' with
  | true =>
    simp only [hcont, hp hcont]
    cases hch : (trim cmd).any (fun c => c == ';' || c == '&') with
    | true => simp only [hch, hc hch]
    | false => simp only [hch]
  | false =>
    simp only [hcont]
    cases hch : (trim cmd).any (fun c => c == ';' || c == '&') with
    | true => simp only [hch, hc hch]
    | false => simp only [hch]

/-- C3 amended, witness: `ls;npm install` — safe first segment, mutating
second segment, verdict `safe`. -/
theorem C3_first_segment_decides_safe_amended_witness :
    analyseCommand (str "ls;npm install") = ⟨.safe, str "Read-only command"⟩ := by
  rw [C3_first_segment_decides_safe_amended (str "ls;npm install") (by decide) (by decide)
    (fun h => absurd h (by decide)) (fun _ => by decide)]
  decide

/-- C4 amended: every path beginning with `/etc/` is `blocked` (the raw
path matches the first blocked pattern); the tilde form `~/.bashrc` is
`destructive` whenever its home-expanded form escapes the blocked table
(the raw form matches the first destructive pattern; the destructive
patterns match only tilde/relative spellings, so — per the counterexample —
the explicit absolute home path is *not* destructive); and `src/x` is
`mutating` for every home directory. -/
theorem C4_write_path_classification_amended (home s : Str) (hpre : (str "/etc/") <+: s)
    (hb : BLOCKED_WRITE_PATHS.find? (fun e =>
      rtest (str "~/.bashrc") e.pattern ||
      rtest (homeExpand home (str "~/.bashrc")) e.pattern) = none) :
    analyseWritePath home s = ⟨.blocked, str "Blocked: writing to System configuration directory"⟩
    ∧ analyseWritePath home (str "~/.bashrc") = ⟨.destructive, str "Shell configuration file"⟩
    ∧ analyseWritePath home (str "src/x") = ⟨.mutating, str "File write"⟩ := by
  refine ⟨?_, ?_, ?_⟩
  · have hmatch : rtest s (.seq .bos (rlit "/etc/")) = true :=
      rtest_bos_lit (str "/etc/") s hpre
    simp only [analyseWritePath]
    rw [show BLOCKED_WRITE_PATHS =
      ⟨.seq .bos (rlit "/etc/"), str "System configuration directory"⟩ ::
        BLOCKED_WRITE_PATHS.tail from rfl]
    rw [List.find?_cons_of_pos _ (by simp [hmatch])]
    rfl
  · simp only [analyseWritePath]
    rw [hb]
    have hdest : rtest (str "~/.bashrc") (tildePat (.seq (rlit ".bashrc") .eos)) = true := by
      decide
    rw [show DESTRUCTIVE_WRITE_PATHS =
      ⟨tildePat (.seq (rlit ".bashrc") .eos), str "Shell configuration file"⟩ ::
        DESTRUCTIVE_WRITE_PATHS.tail from rfl]
    rw [List.find?_cons_of_pos _ (by simp [hdest])]
  · simp only [analyseWritePath]
    rw [show homeExpand home (str "src/x") = str "src/x" from rfl]
    decide

/-- C4 amended, witness at `HOME=/home/user`. -/
theorem C4_write_path_classification_amended_witness :
    analyseWritePath (str "/home/user") (str "/etc/passwd")
      = ⟨.blocked, str "Blocked: writing to System configuration directory"⟩
    ∧ analyseWritePath (str "/home/user") (str "~/.bashrc")
      = ⟨.destructive, str "Shell configuration file"⟩
    ∧ analyseWritePath (str "/home/user") (str "src/x")
      = ⟨.mutating, str "File write"⟩ :=
  C4_write_path_classification_amended (str "/home/user") (str "/etc/passwd")
    (by decide) (by decide)

/-- C9: whenever any destructive pattern matches the trimmed command line,
`analyseCommand` returns `destructive` or `blocked` — never `safe` or
`mutating` — because the whole-line destructive scan runs directly after
the blocked scan and before the whitelist is ever consulted. -/
theorem C9_destructive_pattern_forces_destructive_or_blocked (cmd : Str)
    (h : DESTRUCTIVE_COMMANDS.any (fun e => rtest (trim cmd) e.pattern) = true) :
    (analyseCommand cmd).level = .destructive ∨ (analyseCommand cmd).level = .blocked := by
  unfold analyseCommand analyseCommandF analyseBody
  cases hb : BLOCKED_PATTERNS.find? (fun e => rtest (trim cmd) e.pattern) with
  | some e =>
    simp only [hb]
    right
    trivial
  | none =>
    cases hd : DESTRUCTIVE_COMMANDS.find? (fun e => rtest (trim cmd) e.pattern) with
    | some e =>
      simp only [hb, hd]
      left
      trivial
    | none =>
      rw [List.find?_eq_none] at hd
      rw [List.any_eq_true] at h
      obtain ⟨e, he, hp⟩ := h
      exact absurd hp (by simpa using hd e he)

/-- C9 witness: `echo sudo` has a read-only first command but matches
`\bsudo\b`, so it is classified `destructive` or `blocked`. -/
theorem C9_destructive_pattern_forces_destructive_or_blocked_witness :
    (analyseCommand (str "echo sudo")).level = .destructive
    ∨ (analyseCommand (str "echo sudo")).level = .blocked :=
  C9_destructive_pattern_forces_destructive_or_blocked (str "echo sudo") (by decide)

/-- Unfolding of one agent loop iteration. -/
theorem agentLoop_succ (env : AgentEnv) (fuel : Nat) (msgs : List ChatMessage)
    (tcc pc : Nat) :
    agentLoop env (fuel + 1) msgs tcc pc =
      (let responseMessage := env.respond msgs
       let msgs := msgs ++ [responseMessage]
       if responseMessage.toolCalls.isEmpty then
         ⟨msgs, responseMessage.content.getD [], tcc, pc + 1⟩
       else
         let st := responseMessage.toolCalls.foldl (processToolCall env) (msgs, tcc)
         agentLoop env fuel st.1 st.2 (pc + 1)) := rfl

/-- Every branch of the tool-call body increments `toolCallCount` by one. -/
theorem processToolCall_snd (env : AgentEnv) (st : List ChatMessage × Nat) (tc : ToolCall) :
    (processToolCall env st tc).2 = st.2 + 1 := by
  unfold processToolCall
  cases h : DANGEROUS_TOOLS.contains tc.name <;> simp [h] <;> split <;> rfl

/-- Processing a tool-call list adds its length to `toolCallCount`. -/
theorem foldl_processToolCall_snd (env : AgentEnv) (l : List ToolCall) :
    ∀ st : List ChatMessage × Nat, (l.foldl (processToolCall env) st).2 = st.2 + l.length := by
  induction l with
  | nil => intro st; simp
  | cons tc l ih =>
    intro st
    simp only [List.foldl_cons, ih, processToolCall_snd, List.length_cons]
    omega

/-- If every provider response carries a tool call, the loop consumes all
its fuel: it returns the iteration-limit text after exactly `f` provider
calls, and when every response carries exactly one tool call the tool-call
count grows by exactly `f`. -/
theorem agentLoop_limit (env : AgentEnv)
    (h1 : ∀ m, (env.respond m).toolCalls ≠ []) (f : Nat) :
    ∀ (msgs : List ChatMessage) (tcc pc : Nat),
      (agentLoop env f msgs tcc pc).finalContent = str "[Agent reached maximum iteration limit]"
      ∧ (agentLoop env f msgs tcc pc).providerCalls = pc + f
      ∧ ((∀ m, ((env.respond m).toolCalls).length = 1) →
          (agentLoop env f msgs tcc pc).toolCallCount = tcc + f) := by
  induction f with
  | zero => intro msgs tcc pc; exact ⟨rfl, rfl, fun _ => rfl⟩
  | succ f ih =>
    intro msgs tcc pc
    rw [agentLoop_succ]
    have hne : (env.respond msgs).toolCalls.isEmpty = false := by
      simpa [List.isEmpty_iff] using h1 msgs
    simp only [hne, Bool.false_eq_true, if_false, ite_false]
    obtain ⟨ha, hb, hc⟩ := ih (((env.respond msgs).toolCalls).foldl (processToolCall env)
        (msgs ++ [env.respond msgs], tcc)).1
      (((env.respond msgs).toolCalls).foldl (processToolCall env)
        (msgs ++ [env.respond msgs], tcc)).2 (pc + 1)
    refine ⟨ha, by rw [hb]; omega, fun hone => ?_⟩
    rw [hc hone, foldl_processToolCall_snd, hone]
    show tcc + 1 + f = tcc + (f + 1)
    omega

/-- C5 amended: when a gated tool call is denied, `runAgent` does not
execute that tool; it appends a `tool` message with the denied call's id
whose text is `"Permission denied by user. The user did not allow
{tool}."` (beginning with `"Permission denied by user."`), and proceeds to
the next tool call of the same assistant message — here executed normally —
then continues the loop to the next provider turn. -/
theorem C5_denial_appends_and_continues_amended (env : AgentEnv) (sysPrompt : Str)
    (hist : List ChatMessage) (resp1 resp2 : ChatMessage) (tc1 tc2 : ToolCall)
    (p : Str → JsonObj → Bool)
    (h1 : env.respond (systemMessage sysPrompt :: hist) = resp1)
    (hcalls : resp1.toolCalls = [tc1, tc2])
    (hdang : DANGEROUS_TOOLS.contains tc1.name = true)
    (hperm : env.perm = some p)
    (hdeny : p tc1.name ((env.jparse tc1.arguments).getD emptyObj) = false)
    (hnd2 : DANGEROUS_TOOLS.contains tc2.name = false)
    (h2 : env.respond ((systemMessage sysPrompt :: hist) ++ [resp1,
        toolResultMessage tc1.id (str "Permission denied by user. The user did not allow "
          ++ tc1.name ++ str "."),
        toolResultMessage tc2.id (execResultM env tc2)]) = resp2)
    (hterm : resp2.toolCalls = []) :
    runAgentM env sysPrompt hist none =
      ⟨(systemMessage sysPrompt :: hist) ++ [resp1,
        toolResultMessage tc1.id (str "Permission denied by user. The user did not allow "
          ++ tc1.name ++ str "."),
        toolResultMessage tc2.id (execResultM env tc2), resp2],
       resp2.content.getD [], 2, 2⟩ := by
  show agentLoop env (19 + 1) (systemMessage sysPrompt :: hist) 0 0 = _
  rw [agentLoop_succ]
  simp only [h1, hcalls]
  simp only [List.isEmpty_cons, List.foldl_cons, List.foldl_nil]
  simp only [processToolCall, hdang, hperm, hdeny, hnd2]
  simp only [Bool.not_false, if_true, if_false, Bool.false_eq_true, ite_false, ite_true]
  rw [show (19 : Nat) = 18 + 1 from rfl]
  rw [agentLoop_succ]
  simp only [List.append_assoc, List.cons_append, List.nil_append] at h2 ⊢
  rw [h2, hterm]
  rfl

/-- C5 amended, witness: a two-tool turn where `write_file` is denied and
`read_file` still runs (its arguments fail to parse, so its result is the
parse tool error), then a terminal turn. -/
theorem C5_denial_appends_and_continues_amended_witness :
    runAgentM (mkScriptEnv c5turn1 c5turn2 false) (str "SP") [userMessage (str "hi")] none =
      ⟨[systemMessage (str "SP"), userMessage (str "hi"), c5turn1,
        toolResultMessage (str "id1")
          (str "Permission denied by user. The user did not allow write_file."),
        toolResultMessage (str "id2")
          (str "Error: Failed to parse arguments for tool \"read_file\""),
        c5turn2], str "done", 2, 2⟩ := by
  refine (C5_denial_appends_and_continues_amended (mkScriptEnv c5turn1 c5turn2 false)
    (str "SP") [userMessage (str "hi")]
    c5turn1 c5turn2 ⟨str "id1", str "write_file", str "x"⟩
    ⟨str "id2", str "read_file", str "y"⟩ (fun _ _ => false)
    (by decide) rfl (by decide) rfl rfl (by decide) (by decide) rfl).trans (by decide)

/-- C6 amended: the empty-object fallback feeds only the loop's callbacks;
`executeTool` independently re-parses the arguments string and, when the
parse fails, raises the tool error `Failed to parse arguments for tool
"{name}"` without dispatching to any executor (the result is the same for
every executor behaviour, as the quantification over `env` shows), and the
loop records `"Error: …"` as that call's tool result. -/
theorem C6_parse_failure_is_tool_error_amended (env : AgentEnv) (tc : ToolCall)
    (st : List ChatMessage × Nat)
    (hparse : env.jparse tc.arguments = none) :
    executeToolM env tc
      = .error (str "Failed to parse arguments for tool \"" ++ tc.name ++ str "\"")
    ∧ (DANGEROUS_TOOLS.contains tc.name = false →
        processToolCall env st tc
          = (st.1 ++ [toolResultMessage tc.id
              (str "Error: Failed to parse arguments for tool \"" ++ tc.name ++ str "\"")],
             st.2 + 1)) := by
  have hexec : executeToolM env tc
      = .error (str "Failed to parse arguments for tool \"" ++ tc.name ++ str "\"") := by
    unfold executeToolM
    rw [hparse]
  refine ⟨hexec, fun hnd => ?_⟩
  unfold processToolCall
  simp only [hnd, Bool.false_eq_true, if_false, ite_false]
  unfold execResultM
  rw [hexec]
  dsimp only
  have hcat : str "Error: " ++ str "Failed to parse arguments for tool \""
      = str "Error: Failed to parse arguments for tool \"" := by decide
  simp only [← List.append_assoc, hcat]

/-- C6 amended, witness: a `read_file` call with unparseable arguments. -/
theorem C6_parse_failure_is_tool_error_amended_witness :
    executeToolM (mkScriptEnv c5turn1 c5turn2 true) ⟨str "id", str "read_file", str "bad"⟩
      = .error (str "Failed to parse arguments for tool \"read_file\"")
    ∧ processToolCall (mkScriptEnv c5turn1 c5turn2 true) ([], 0)
        ⟨str "id", str "read_file", str "bad"⟩
      = ([toolResultMessage (str "id")
          (str "Error: Failed to parse arguments for tool \"read_file\"")], 1) := by
  obtain ⟨a, b⟩ := C6_parse_failure_is_tool_error_amended
    (mkScriptEnv c5turn1 c5turn2 true) ⟨str "id", str "read_file", str "bad"⟩ ([], 0) rfl
  exact ⟨a, (b (by decide)).trans (by decide)⟩

/-- C8: when every provider response carries at least one tool call,
`runAgent` (default `maxIterations`) performs exactly 20 iterations — 20
provider calls — and returns `finalContent` equal to
`"[Agent reached maximum iteration limit]"`; when each response carries
exactly one tool call, the returned `toolCallCount` is 20. -/
theorem C8_iteration_limit (env : AgentEnv) (sysPrompt : Str) (hist : List ChatMessage)
    (h1 : ∀ m, (env.respond m).toolCalls ≠ []) :
    (runAgentM env sysPrompt hist none).finalContent
      = str "[Agent reached maximum iteration limit]"
    ∧ (runAgentM env sysPrompt hist none).providerCalls = 20
    ∧ ((∀ m, ((env.respond m).toolCalls).length = 1) →
        (runAgentM env sysPrompt hist none).toolCallCount = 20) := by
  have h := agentLoop_limit env h1 20 (systemMessage sysPrompt :: hist) 0 0
  simpa [runAgentM] using h

/-- `firstOccAux` returns a genuine occurrence: the needle is a prefix of
the suffix at the returned index, which lies within the haystack. -/
theorem firstOccAux_bounds {n s : Str} {q : Nat} (h : firstOccAux n s = some q) :
    n.isPrefixOf (s.drop q) = true ∧ q + n.length ≤ s.length := by
  induction s generalizing q with
  | nil =>
    unfold firstOccAux at h
    split at h
    · rename_i hp
      cases h
      have hn : n = [] := by simpa using hp
      subst hn
      simp
    · cases h
  | cons c t ih =>
    unfold firstOccAux at h
    split at h
    · rename_i hp
      cases h
      have hlen : n.length ≤ (c :: t).length :=
        (List.isPrefixOf_iff_prefix.mp hp).length_le
      exact ⟨by simpa using hp, by simpa using hlen⟩
    · rename_i hp
      rw [Option.map_eq_some'] at h
      obtain ⟨q', hq', rfl⟩ := h
      obtain ⟨h1, h2⟩ := ih hq'
      refine ⟨by simpa using h1, ?_⟩
      simp only [List.length_cons]
      omega

/-- The fuel of `occCountF` is irrelevant once it exceeds the input
length. -/
theorem occCountF_congr {n : Str} (hn : n ≠ []) :
    ∀ {f g : Nat} {s : Str}, s.length < f → s.length < g → occCountF n f s = occCountF n g s := by
  intro f
  induction f with
  | zero => intro g s hf; omega
  | succ f ih =>
    intro g s hf hg
    obtain ⟨g', rfl⟩ : ∃ g', g = g' + 1 := ⟨g - 1, by omega⟩
    unfold occCountF
    split
    · rename_i hp
      have hpre := List.isPrefixOf_iff_prefix.mp hp.1
      have hlen : n.length ≤ s.length := hpre.length_le
      have hnl : 0 < n.length := List.length_pos.mpr hn
      have h1 : (s.drop n.length).length < f := by simp; omega
      have hg' : (s.drop n.length).length < g' := by simp; omega
      rw [ih h1 hg']
    · match s with
      | [] => rfl
      | c :: t =>
        have h1 : t.length < f := by simp at hf; omega
        have hg' : t.length < g' := by simp at hg; omega
        exact ih h1 hg'

/-- One unfolding of the greedy occurrence count. -/
theorem occCount_step {n : Str} (hn : n ≠ []) (s : Str) :
    occCount n s =
      if n.isPrefixOf s = true then occCount n (s.drop n.length) + 1
      else match s with
        | [] => 0
        | _ :: t => occCount n t := by
  show occCountF n (s.length + 1) s = _
  unfold occCountF
  by_cases hp : n.isPrefixOf s = true
  · rw [if_pos ⟨hp, hn⟩, if_pos hp]
    have hpre := List.isPrefixOf_iff_prefix.mp hp
    have hlen : n.length ≤ s.length := hpre.length_le
    have hnl : 0 < n.length := List.length_pos.mpr hn
    have h1 : occCountF n s.length (s.drop n.length)
        = occCount n (s.drop n.length) :=
      occCountF_congr hn (by simp; omega) (by simp [occCount])
    rw [h1]
  · rw [if_neg (by simp [hp]), if_neg hp]
    match s with
    | [] => rfl
    | c :: t =>
      show occCountF n (c :: t).length t = occCount n t
      exact occCountF_congr hn (by simp) (by simp [occCount])

/-- No occurrence means the greedy count is zero. -/
theorem occCount_of_none {n : Str} (hn : n ≠ []) :
    ∀ {s : Str}, firstOccAux n s = none → occCount n s = 0 := by
  intro s
  induction s with
  | nil =>
    intro _
    rw [occCount_step hn]
    rw [if_neg (by simp [List.isPrefixOf_iff_prefix, hn])]
  | cons c t ih =>
    intro h
    unfold firstOccAux at h
    split at h
    · cases h
    · rename_i hp
      rw [Option.map_eq_none'] at h
      rw [occCount_step hn, if_neg hp]
      exact ih h

/-- The greedy count steps over the first occurrence. -/
theorem occCount_of_some {n : Str} (hn : n ≠ []) :
    ∀ {s : Str} {p : Nat}, firstOccAux n s = some p →
      occCount n s = occCount n (s.drop (p + n.length)) + 1 := by
  intro s
  induction s with
  | nil =>
    intro p h
    unfold firstOccAux at h
    split at h
    · rename_i hp
      have : n = [] := by simpa [List.isPrefixOf_iff_prefix] using hp
      exact absurd this hn
    · cases h
  | cons c t ih =>
    intro p h
    unfold firstOccAux at h
    split at h
    · rename_i hp
      cases h
      rw [occCount_step hn, if_pos hp]
      simp
    · rename_i hp
      rw [Option.map_eq_some'] at h
      obtain ⟨q, hq, rfl⟩ := h
      rw [occCount_step hn, if_neg hp]
      show occCount n t = _
      rw [ih hq]
      have hdrop : (c :: t).drop (q + 1 + n.length) = t.drop (q + n.length) := by
        rw [Nat.add_right_comm]
        simp [List.drop_succ_cons]
      rw [hdrop]

/-- Correctness of the fueled `indexOf` loop of `countOccurrences`: with a
non-empty needle and enough fuel it returns the greedy occurrence count of
the remaining haystack. -/
theorem countLoop_spec {h n : Str} (hn : n ≠ []) :
    ∀ (f pos acc : Nat), pos ≤ h.length → h.length - pos < f →
      countLoop h n f pos acc = some (acc + occCount n (h.drop pos)) := by
  intro f
  induction f with
  | zero => intro pos acc hpos hf; omega
  | succ f ih =>
    intro pos acc hpos hf
    have hmin : min pos h.length = pos := Nat.min_eq_left hpos
    unfold countLoop indexOfFrom
    rw [hmin]
    dsimp only
    cases hfo : firstOccAux n (h.drop pos) with
    | none =>
      simp only [Option.map_none']
      rw [occCount_of_none hn hfo]
      rfl
    | some q =>
      simp only [Option.map_some']
      obtain ⟨hpre, hbound⟩ := firstOccAux_bounds hfo
      have hnl : 0 < n.length := List.length_pos.mpr hn
      have hdlen : (h.drop pos).length = h.length - pos := by simp
      rw [hdlen] at hbound
      have hstep := occCount_of_some hn hfo
      have hdd : (h.drop pos).drop (q + n.length) = h.drop (q + pos + n.length) := by
        rw [List.drop_drop]
        congr 1
        omega
      rw [hdd] at hstep
      rw [ih (q + pos + n.length) (acc + 1) (by omega) (by omega)]
      rw [hstep]
      congr 1
      omega

/-- `countOccurrences` terminates with the greedy occurrence count for any
non-empty needle. -/
theorem countOccurrences_eq {h n : Str} (hn : n ≠ []) :
    countOccurrences h n = some (occCount n h) := by
  have h0 := countLoop_spec (h := h) (n := n) hn (h.length + 1) 0 0 (by omega) (by omega)
  simpa [countOccurrences] using h0

/-- With an empty needle, `indexOf` returns the (clamped) scan position
itself. -/
theorem indexOfFrom_empty (h : Str) (pos : Nat) :
    indexOfFrom h [] pos = some (min pos h.length) := by
  unfold indexOfFrom
  dsimp only
  have hfo : firstOccAux [] (h.drop (min pos h.length)) = some 0 := by
    cases hd : h.drop (min pos h.length) <;> simp [firstOccAux, List.isPrefixOf]
  rw [hfo]
  simp

/-- With an empty needle the counting loop never returns, whatever the
fuel: the model of the source loop's non-termination. -/
theorem countLoop_empty (h : Str) :
    ∀ (f pos acc : Nat), countLoop h [] f pos acc = none := by
  intro f
  induction f with
  | zero => intro pos acc; rfl
  | succ f ih =>
    intro pos acc
    unfold countLoop
    rw [indexOfFrom_empty]
    exact ih (min pos h.length + [].length) (acc + 1)

/-- C10: for every haystack and non-empty `old_string`, `countOccurrences`
terminates and returns the number of non-overlapping (greedy, leftmost)
occurrences, and hence `executeEditFile` terminates; the non-emptiness
hypothesis is necessary: with an empty needle `indexOf` returns the
unchanged scan position, so the loop never advances and never returns, at
any fuel. -/
theorem C10_countOccurrences_termination (h n : Str) :
    (n ≠ [] → countOccurrences h n = some (occCount n h))
    ∧ (∀ pos : Nat, pos ≤ h.length → indexOfFrom h [] pos = some pos)
    ∧ (∀ f pos acc : Nat, countLoop h [] f pos acc = none)
    ∧ (∀ (target newStr : Str) (replaceAll : Bool), n ≠ [] →
        (executeEditFile target h n newStr replaceAll).isSome = true) := by
  refine ⟨fun hn => countOccurrences_eq hn, fun pos hpos => ?_, countLoop_empty h,
    fun target newStr ra hn => ?_⟩
  · rw [indexOfFrom_empty, Nat.min_eq_left hpos]
  · unfold executeEditFile
    rw [countOccurrences_eq hn]
    dsimp only
    split
    · rfl
    · split
      · rfl
      · rfl

/-- C10 witness. -/
theorem C10_countOccurrences_termination_witness :
    countOccurrences (str "abcabc") (str "bc") = some (occCount (str "bc") (str "abcabc"))
    ∧ indexOfFrom (str "abcabc") [] 2 = some 2
    ∧ countLoop (str "abcabc") [] 37 1 5 = none
    ∧ (executeEditFile (str "/t") (str "abcabc") (str "bc") (str "z") true).isSome = true := by
  obtain ⟨a, b, c, d⟩ := C10_countOccurrences_termination (str "abcabc") (str "bc")
  exact ⟨a (by decide), b 2 (by decide), c 37 1 5, d (str "/t") (str "z") true (by decide)⟩

/-- Intercalation over a singleton. -/
theorem intercalate_single (sep x : Str) : List.intercalate sep [x] = x := by
  simp [List.intercalate]

/-- Intercalation over a cons with non-empty tail. -/
theorem intercalate_cons (sep x : Str) {l : List Str} (h : l ≠ []) :
    List.intercalate sep (x :: l) = x ++ sep ++ List.intercalate sep l := by
  match l with
  | y :: t => simp [List.intercalate, List.intersperse]

/-- `split` never returns an empty list. -/
theorem splitStrF_ne_nil (sep : Str) (f : Nat) (s : Str) : splitStrF sep f s ≠ [] := by
  cases f with
  | zero => simp [splitStrF]
  | succ f =>
    unfold splitStrF
    cases hfo : firstOccAux sep s <;> simp

/-- The fuel of `replaceAllF` is irrelevant once it exceeds the input
length. -/
theorem replaceAllF_congr {old new : Str} (hn : old ≠ []) :
    ∀ {f g : Nat} {s : Str}, s.length < f → s.length < g →
      replaceAllF old new f s = replaceAllF old new g s := by
  intro f
  induction f with
  | zero => intro g s hf; omega
  | succ f ih =>
    intro g s hf hg
    obtain ⟨g', rfl⟩ : ∃ g', g = g' + 1 := ⟨g - 1, by omega⟩
    unfold replaceAllF
    split
    · rename_i hp
      have hpre := List.isPrefixOf_iff_prefix.mp hp.1
      have hlen : old.length ≤ s.length := hpre.length_le
      have hnl : 0 < old.length := List.length_pos.mpr hn
      have h1 : (s.drop old.length).length < f := by simp; omega
      have h2 : (s.drop old.length).length < g' := by simp; omega
      rw [ih h1 h2]
    · match s with
      | [] => rfl
      | c :: t =>
        have h1 : t.length < f := by simp at hf; omega
        have h2 : t.length < g' := by simp at hg; omega
        exact congrArg (c :: ·) (ih h1 h2)

/-- One unfolding of the greedy replace-all. -/
theorem replaceAll_step {old new : Str} (hn : old ≠ []) (s : Str) :
    replaceAllG old new s =
      if old.isPrefixOf s = true then new ++ replaceAllG old new (s.drop old.length)
      else match s with
        | [] => []
        | c :: t => c :: replaceAllG old new t := by
  show replaceAllF old new (s.length + 1) s = _
  unfold replaceAllF
  by_cases hp : old.isPrefixOf s = true
  · rw [if_pos ⟨hp, hn⟩, if_pos hp]
    have hpre := List.isPrefixOf_iff_prefix.mp hp
    have hlen : old.length ≤ s.length := hpre.length_le
    have hnl : 0 < old.length := List.length_pos.mpr hn
    have h1 : (s.drop old.length).length < s.length := by simp; omega
    have h2 : (s.drop old.length).length < (s.drop old.length).length + 1 := by omega
    exact congrArg (new ++ ·) (replaceAllF_congr hn h1 h2)
  · rw [if_neg (by simp [hp]), if_neg hp]
    match s with
    | [] => rfl
    | c :: t =>
      show c :: replaceAllF old new (c :: t).length t = c :: replaceAllG old new t
      have h1 : t.length < (c :: t).length := by simp
      have h2 : t.length < t.length + 1 := by omega
      exact congrArg (c :: ·) (replaceAllF_congr hn h1 h2)

/-- Replacing with no occurrence present is the identity. -/
theorem replaceAll_of_none {old new : Str} (hn : old ≠ []) :
    ∀ {s : Str}, firstOccAux old s = none → replaceAllG old new s = s := by
  intro s
  induction s with
  | nil =>
    intro _
    rw [replaceAll_step hn]
    rw [if_neg (by simp [List.isPrefixOf_iff_prefix, hn])]
  | cons c t ih =>
    intro h
    unfold firstOccAux at h
    split at h
    · cases h
    · rename_i hp
      rw [Option.map_eq_none'] at h
      rw [replaceAll_step hn, if_neg hp]
      show c :: replaceAllG old new t = c :: t
      rw [ih h]

/-- Greedy replace-all steps over the first occurrence. -/
theorem replaceAll_of_some {old new : Str} (hn : old ≠ []) :
    ∀ {s : Str} {p : Nat}, firstOccAux old s = some p →
      replaceAllG old new s
        = s.take p ++ new ++ replaceAllG old new (s.drop (p + old.length)) := by
  intro s
  induction s with
  | nil =>
    intro p h
    unfold firstOccAux at h
    split at h
    · rename_i hp
      have : old = [] := by simpa [List.isPrefixOf_iff_prefix] using hp
      exact absurd this hn
    · cases h
  | cons c t ih =>
    intro p h
    unfold firstOccAux at h
    split at h
    · rename_i hp
      cases h
      rw [replaceAll_step hn, if_pos hp]
      simp
    · rename_i hp
      rw [Option.map_eq_some'] at h
      obtain ⟨q, hq, rfl⟩ := h
      rw [replaceAll_step hn, if_neg hp]
      show c :: replaceAllG old new t = _
      rw [ih hq]
      have hdrop : (c :: t).drop (q + 1 + old.length) = t.drop (q + old.length) := by
        rw [Nat.add_right_comm]
        simp [List.drop_succ_cons]
      rw [hdrop]
      simp

/-- `content.split(old).join(new)` is exactly the greedy non-overlapping
replace-all. -/
theorem intercalate_splitStr {old new : Str} (hn : old ≠ []) :
    ∀ {f : Nat} {s : Str}, s.length < f →
      List.intercalate new (splitStrF old f s) = replaceAllG old new s := by
  intro f
  induction f with
  | zero => intro s hf; omega
  | succ f ih =>
    intro s hf
    unfold splitStrF
    cases hfo : firstOccAux old s with
    | none =>
      rw [intercalate_single, replaceAll_of_none hn hfo]
    | some p =>
      rw [intercalate_cons _ _ (splitStrF_ne_nil old f (s.drop (p + old.length)))]
      obtain ⟨hpre, hbound⟩ := firstOccAux_bounds hfo
      have hnl : 0 < old.length := List.length_pos.mpr hn
      have hrec : (s.drop (p + old.length)).length < f := by simp; omega
      rw [ih hrec, replaceAll_of_some hn hfo]

/-- The first-occurrence splice of the source equals the greedy
replace-first. -/
theorem splice_eq_replaceFirst {old new : Str} (hn : old ≠ []) :
    ∀ {s : Str} {p : Nat}, firstOccAux old s = some p →
      s.take p ++ new ++ s.drop (p + old.length) = replaceFirstG old new s := by
  intro s
  induction s with
  | nil =>
    intro p h
    unfold firstOccAux at h
    split at h
    · rename_i hp
      have : old = [] := by simpa [List.isPrefixOf_iff_prefix] using hp
      exact absurd this hn
    · cases h
  | cons c t ih =>
    intro p h
    unfold firstOccAux at h
    split at h
    · rename_i hp
      cases h
      unfold replaceFirstG
      rw [if_pos hp]
      simp
    · rename_i hp
      rw [Option.map_eq_some'] at h
      obtain ⟨q, hq, rfl⟩ := h
      unfold replaceFirstG
      rw [if_neg hp]
      have hdrop : (c :: t).drop (q + 1 + old.length) = t.drop (q + old.length) := by
        rw [Nat.add_right_comm]
        simp [List.drop_succ_cons]
      rw [hdrop]
      show c :: (t.take q ++ new ++ t.drop (q + old.length)) = _
      rw [ih hq]

/-- A search from position 0 is the plain first-occurrence search. -/
theorem indexOfFrom_zero (h n : Str) : indexOfFrom h n 0 = firstOccAux n h := by
  unfold indexOfFrom
  dsimp only
  rw [Nat.min_eq_left (by omega), List.drop_zero]
  cases hfo : firstOccAux n h <;> simp

/-- A list is an infix of itself followed by anything. -/
theorem infix_here {x rest : Str} : x <:+: x ++ rest := ⟨[], rest, by simp⟩

/-- Prepending preserves the infix relation. -/
theorem infix_extend {x l : Str} (h : x <:+: l) (a : Str) : x <:+: a ++ l := by
  obtain ⟨s, t, rfl⟩ := h
  exact ⟨a ++ s, t, by simp [List.append_assoc]⟩

/-- C7: for a non-empty `old_string` occurring `n` times in the file
content: `n = 0` raises a tool error (no write); `n > 1` without
`replace_all` raises a tool error naming the count (no write); `n = 1`
without `replace_all` writes the content with the first occurrence
replaced; with `replace_all` and `n ≥ 1` every non-overlapping occurrence
is replaced and written; in both success cases the returned summary names
the absolute target path and the replacement count. -/
theorem C7_editFile_occurrence_cases (target content oldStr newStr : Str) (replaceAll : Bool)
    (hn : oldStr ≠ []) :
    (occCount oldStr content = 0 →
      ∃ m, executeEditFile target content oldStr newStr replaceAll = some (.err m))
    ∧ (1 < occCount oldStr content → replaceAll = false →
      ∃ m, executeEditFile target content oldStr newStr replaceAll = some (.err m)
        ∧ natStr (occCount oldStr content) <:+: m)
    ∧ (occCount oldStr content = 1 → replaceAll = false →
      ∃ out, executeEditFile target content oldStr newStr replaceAll
          = some (.ok (replaceFirstG oldStr newStr content) out)
        ∧ target <:+: out ∧ natStr 1 <:+: out)
    ∧ (1 ≤ occCount oldStr content → replaceAll = true →
      ∃ out, executeEditFile target content oldStr newStr replaceAll
          = some (.ok (replaceAllG oldStr newStr content) out)
        ∧ target <:+: out ∧ natStr (occCount oldStr content) <:+: out) := by
  refine ⟨?_, ?_, ?_, ?_⟩
  · intro h0
    unfold executeEditFile
    rw [countOccurrences_eq hn]
    dsimp only
    rw [if_pos h0]
    exact ⟨_, rfl⟩
  · intro h1 hra
    subst hra
    unfold executeEditFile
    rw [countOccurrences_eq hn]
    dsimp only
    rw [if_neg (show ¬(occCount oldStr content = 0) from by omega)]
    rw [if_pos (show 1 < occCount oldStr content ∧ (!false) = true from ⟨h1, by simp⟩)]
    refine ⟨_, rfl, ?_⟩
    simp only [List.append_assoc]
    exact infix_extend infix_here _
  · intro h1 hra
    subst hra
    unfold executeEditFile
    rw [countOccurrences_eq hn]
    dsimp only
    rw [if_neg (show ¬(occCount oldStr content = 0) from by omega)]
    rw [if_neg (show ¬(1 < occCount oldStr content ∧ (!false) = true) from by simp [h1])]
    simp only [Bool.false_eq_true, if_false, ite_false]
    rw [indexOfFrom_zero]
    cases hfo : firstOccAux oldStr content with
    | none =>
      rw [occCount_of_none hn hfo] at h1
      omega
    | some p =>
      dsimp only
      rw [splice_eq_replaceFirst hn hfo]
      refine ⟨_, rfl, ?_, ?_⟩
      · split
        · simp only [List.append_assoc]
          exact infix_extend infix_here _
        · simp only [List.append_assoc]
          exact infix_extend infix_here _
      · split
        · simp only [List.append_assoc]
          exact infix_extend (infix_extend (infix_extend infix_here _) _) _
        · simp only [List.append_assoc]
          exact infix_extend (infix_extend (infix_extend infix_here _) _) _
  · intro h1 hra
    subst hra
    unfold executeEditFile
    rw [countOccurrences_eq hn]
    dsimp only
    rw [if_neg (show ¬(occCount oldStr content = 0) from by omega)]
    rw [if_neg (show ¬(1 < occCount oldStr content ∧ (!true) = true) from by simp)]
    simp only [ite_true, if_true]
    rw [show splitStr oldStr content = splitStrF oldStr (content.length + 1) content from
      by rw [splitStr, if_neg hn]]
    rw [intercalate_splitStr hn (show content.length < content.length + 1 from by omega)]
    refine ⟨_, rfl, ?_, ?_⟩
    · split
      · simp only [List.append_assoc]
        exact infix_extend infix_here _
      · simp only [List.append_assoc]
        exact infix_extend infix_here _
    · split
      · simp only [List.append_assoc]
        exact infix_extend (infix_extend (infix_extend infix_here _) _) _
      · simp only [List.append_assoc]
        exact infix_extend (infix_extend (infix_extend infix_here _) _) _

/-- C7 witness: the spec's edit scenario — content `aaa\nbbb\naaa`,
`old_string` `aaa` (2 occurrences), `new_string` `z`. -/
theorem C7_editFile_occurrence_cases_witness :
    (∃ m, executeEditFile (str "/w/f") (str "aaa\nbbb\naaa") (str "aaa") (str "z") false
        = some (.err m) ∧ natStr 2 <:+: m)
    ∧ (∃ out, executeEditFile (str "/w/f") (str "aaa\nbbb\naaa") (str "aaa") (str "z") true
        = some (.ok (replaceAllG (str "aaa") (str "z") (str "aaa\nbbb\naaa")) out)
        ∧ str "/w/f" <:+: out ∧ natStr 2 <:+: out) := by
  have h2 : occCount (str "aaa") (str "aaa\nbbb\naaa") = 2 := by decide
  constructor
  · have h := (C7_editFile_occurrence_cases (str "/w/f") (str "aaa\nbbb\naaa") (str "aaa")
      (str "z") false (by decide)).2.1 (by rw [h2]; omega) rfl
    rwa [h2] at h
  · have h := (C7_editFile_occurrence_cases (str "/w/f") (str "aaa\nbbb\naaa") (str "aaa")
      (str "z") true (by decide)).2.2.2 (by rw [h2]; omega) rfl
    rwa [h2] at h

/-- C8 witness: a provider that emits one new tool call on every turn. -/
theorem C8_iteration_limit_witness :
    (runAgentM loopEnv (str "SP") [userMessage (str "hi")] none).finalContent
      = str "[Agent reached maximum iteration limit]"
    ∧ (runAgentM loopEnv (str "SP") [userMessage (str "hi")] none).providerCalls = 20
    ∧ (runAgentM loopEnv (str "SP") [userMessage (str "hi")] none).toolCallCount = 20 := by
  obtain ⟨a, b, c⟩ := C8_iteration_limit loopEnv (str "SP") [userMessage (str "hi")]
    (fun _ => (by decide :
      ([(⟨str "id", str "read_file", str "x"⟩ : ToolCall)] : List ToolCall) ≠ []))
  exact ⟨a, b, c (fun _ => (by decide :
    ([(⟨str "id", str "read_file", str "x"⟩ : ToolCall)] : List ToolCall).length = 1))⟩

end CaretForge
